import Mathlib

/-!
Verification development for the tube-rag retrieval core.

This file contains a shallow embedding of the hybrid-search fusion logic
(HybridSearchService in packages/retrieval/src/embeddings.ts) and of the
MongoDB-backed vector store (MongoDBVectorStore), together with theorems
settling the specification claims about them.

Modelling conventions:
- JavaScript numbers are modelled as rationals (Rat).
- JavaScript Map / plain-object string-keyed maps are modelled as
  association lists in insertion order; setting an existing key replaces
  its value in place, a new key is appended (the Map.set / object
  assignment semantics).
- Promise-returning collaborator calls that may reject are modelled as
  functions into Except; a try/catch that converts a rejection into a
  default is modelled by matching on the Except value.
-/

namespace TubeRag

/-- Scalar metadata values stored in filter objects and metadata bags.
The timeRange constructor models the startTimeRange object with optional
min and max components. -/
inductive FVal where
  | str : String → FVal
  | num : Rat → FVal
  | timeRange : Option Rat → Option Rat → FVal
deriving DecidableEq

/-- Association-list lookup modelling reading a key of a JS Map or object:
the first (and in practice only) binding of the key is returned. -/
def objGet {β : Type} : List (String × β) → String → Option β
  | [], _ => none
  | p :: rest, k => if p.1 = k then some p.2 else objGet rest k

/-- Association-list update modelling Map.set / object assignment: an
existing key keeps its position and gets the new value, a new key is
appended at the end. -/
def objSet {β : Type} : List (String × β) → String → β → List (String × β)
  | [], k, v => [(k, v)]
  | p :: rest, k, v => if p.1 = k then (k, v) :: rest else p :: objSet rest k v

/-- SearchResult: the normalized result shape shared by the vector and
text legs (packages/retrieval/src/types.ts, as used by embeddings.ts). -/
structure SearchResult where
  id : String
  content : String
  score : Rat
  videoId : Option String := none
  videoTitle : Option String := none
  timestamp : Option Rat := none
  url : Option String := none
  playlistId : Option String := none
  publishedAt : Option String := none
deriving DecidableEq, Inhabited

/-- Metadata bag of a stored vector: the well-known fields read by the
retrieval layer plus an open side channel of extra fields. -/
structure MetaBag where
  content : Option String := none
  videoId : Option String := none
  playlistId : Option String := none
  title : Option String := none
  publishedAt : Option String := none
  startTime : Option Rat := none
  url : Option String := none
  extra : List (String × FVal) := []
deriving DecidableEq, Inhabited

/-- QueryResult returned by the vector store (packages/vector-store). -/
structure QueryResult where
  id : String
  score : Rat
  metadata : MetaBag
deriving DecidableEq, Inhabited

/-- HybridSearchResult: the two raw per-leg lists plus the fused list. -/
structure HybridSearchResult where
  vectorResults : List SearchResult
  textResults : List SearchResult
  combinedResults : List SearchResult
deriving DecidableEq

/-- Weight/threshold options of HybridSearchService.search. -/
structure SearchOptions where
  vectorWeight : Rat := 7/10
  textWeight : Rat := 3/10
  minScore : Rat := 1/2
deriving DecidableEq

/-- Step of the first fusion loop of HybridSearchService.combineResults:
a vector-leg result whose native score passes minScore is inserted into
the merge map with weighted score. -/
def vectorStep (vectorWeight minScore : Rat) (m : List (String × SearchResult))
    (result : SearchResult) : List (String × SearchResult) :=
  if result.score ≥ minScore then
    objSet m result.id { result with score := result.score * vectorWeight }
  else m

/-- Step of the second fusion loop of HybridSearchService.combineResults:
a text-leg result whose native score passes minScore either adds its
weighted score to an existing entry or is inserted with weighted score. -/
def textStep (textWeight minScore : Rat) (m : List (String × SearchResult))
    (result : SearchResult) : List (String × SearchResult) :=
  if result.score ≥ minScore then
    match objGet m result.id with
    | some existing =>
        objSet m result.id { existing with score := existing.score + result.score * textWeight }
    | none =>
        objSet m result.id { result with score := result.score * textWeight }
  else m

/-- Descending-by-score comparison used by the final sort of
combineResults (the JS comparator (a, b) => b.score - a.score). -/
def scoreGe (a b : SearchResult) : Prop := b.score ≤ a.score

instance : DecidableRel scoreGe := fun a b => inferInstanceAs (Decidable (b.score ≤ a.score))

/-- Stable insertion of one element into a list sorted descending by
score: the element goes before the first strictly smaller score. -/
def insertDesc (a : SearchResult) : List SearchResult → List SearchResult
  | [] => [a]
  | b :: l => if b.score ≤ a.score then a :: b :: l else b :: insertDesc a l

/-- Sort descending by score (models Array.prototype.sort with the
comparator (a, b) => b.score - a.score; tie order is unspecified in the
claims, so any comparator-respecting sort is a faithful model). -/
def sortByScoreDesc : List SearchResult → List SearchResult
  | [] => []
  | a :: l => insertDesc a (sortByScoreDesc l)

/-- HybridSearchService.combineResults (embeddings.ts lines 154-191):
weighted score union keyed by result id, then sort by combined score
descending. -/
def combineResults (vectorResults textResults : List SearchResult)
    (vectorWeight textWeight minScore : Rat) : List SearchResult :=
  let m1 := vectorResults.foldl (vectorStep vectorWeight minScore) []
  let m2 := textResults.foldl (textStep textWeight minScore) m1
  sortByScoreDesc (m2.map Prod.snd)

/-- RetrievalFilters, modelled as the entry list of the JS filter object
(keys in insertion order; a real JS object has pairwise-distinct keys). -/
def RetrievalFilters := List (String × FVal)

/-- Collaborators of HybridSearchService: the embedding provider, the
vector store query, and the lexical text search. Each call may reject,
which Except models. -/
structure SearchEnv where
  generateEmbedding : String → Except String (List Rat)
  vectorQuery : List Rat → Int → Option RetrievalFilters → Except String (List QueryResult)
  searchText : String → Int → Option RetrievalFilters → Except String (List SearchResult)

/-- Mapping of a raw vector-store QueryResult to a SearchResult, as done
inside HybridSearchService.performVectorSearch (embeddings.ts 124-134). -/
def toSearchResult (result : QueryResult) : SearchResult :=
  { id := result.id
    content := result.metadata.content.getD ""
    score := result.score
    videoId := result.metadata.videoId
    videoTitle := result.metadata.title
    timestamp := result.metadata.startTime
    url := result.metadata.url
    playlistId := result.metadata.playlistId
    publishedAt := result.metadata.publishedAt }

/-- HybridSearchService.performVectorSearch (embeddings.ts 115-139):
embed the query, query the vector store, map to SearchResult; any error
in either call is caught and converted to an empty list. -/
def performVectorSearch (env : SearchEnv) (query : String) (topK : Int)
    (filters : Option RetrievalFilters) : List SearchResult :=
  match env.generateEmbedding query with
  | .error _ => []
  | .ok queryEmbedding =>
    match env.vectorQuery queryEmbedding topK filters with
    | .error _ => []
    | .ok results => results.map toSearchResult

/-- HybridSearchService.performTextSearch (embeddings.ts 141-152): call
the lexical backend; any error is caught and converted to an empty list. -/
def performTextSearch (env : SearchEnv) (query : String) (topK : Int)
    (filters : Option RetrievalFilters) : List SearchResult :=
  match env.searchText query topK filters with
  | .error _ => []
  | .ok results => results

/-- Array.prototype.slice(0, e): for e ≥ 0 the first e elements, for
e < 0 all but the last -e elements. -/
def jsSliceTo {α : Type} (l : List α) (e : Int) : List α :=
  if e < 0 then l.take (((l.length : Int) + e).toNat) else l.take e.toNat

/-- HybridSearchService.search (embeddings.ts 85-113): run both legs
(each failing soft), fuse with combineResults, truncate to topK. The
function performs no input validation and has no failure path of its
own. -/
def search (env : SearchEnv) (query : String) (topK : Int)
    (filters : Option RetrievalFilters) (options : SearchOptions) : HybridSearchResult :=
  let vectorResults := performVectorSearch env query topK filters
  let textResults := performTextSearch env query topK filters
  let combined := combineResults vectorResults textResults
    options.vectorWeight options.textWeight options.minScore
  { vectorResults := vectorResults
    textResults := textResults
    combinedResults := jsSliceTo combined topK }

/-- Environment whose lexical backend rejects while the vector leg works. -/
def envTextDown : SearchEnv where
  generateEmbedding := fun _ => .ok [1]
  vectorQuery := fun _ _ _ => .ok [{ id := "v1", score := 1, metadata := {} }]
  searchText := fun _ _ _ => .error "lexical backend down"

/-- Environment whose embedding call rejects while the text leg works. -/
def envVectorDown : SearchEnv where
  generateEmbedding := fun _ => .error "embedding provider down"
  vectorQuery := fun _ _ _ => .ok []
  searchText := fun _ _ _ => .ok [{ id := "t1", content := "t", score := 1 }]

/-- Environment used to exhibit that search dispatches its legs even on
malformed input: the lexical backend replies with one concrete result. -/
def envNoValidation : SearchEnv where
  generateEmbedding := fun _ => .ok []
  vectorQuery := fun _ _ _ => .ok []
  searchText := fun _ _ _ => .ok [{ id := "t1", content := "t", score := 1 }]

/-- Concrete vector-leg fixture used by witnesses (integer-valued scores
keep every hypothesis kernel-decidable). -/
def vrsW : List SearchResult :=
  [{ id := "a", content := "va", score := 9 },
   { id := "b", content := "vb", score := 6, videoId := some "vidB",
     videoTitle := some "titleB", timestamp := some 12, url := some "urlB",
     playlistId := some "plB", publishedAt := some "2024-01-01" }]

/-- Concrete text-leg fixture used by witnesses. -/
def trsW : List SearchResult :=
  [{ id := "b", content := "tb", score := 8, videoId := some "otherVid",
     url := some "otherUrl" },
   { id := "c", content := "tc", score := 7 }]

/-- The vector-leg occurrence of id b in the fixture. -/
def rvW : SearchResult :=
  { id := "b", content := "vb", score := 6, videoId := some "vidB",
    videoTitle := some "titleB", timestamp := some 12, url := some "urlB",
    playlistId := some "plB", publishedAt := some "2024-01-01" }

/-- The text-leg occurrence of id b in the fixture. -/
def rtW : SearchResult :=
  { id := "b", content := "tb", score := 8, videoId := some "otherVid",
    url := some "otherUrl" }

/-- Similarity metric of the vector index (vector-store types.ts). -/
inductive SimilarityMetric where
  | euclidean
  | cosine
  | dotProduct
deriving DecidableEq

/-- MongoVectorStoreConfig (vector-store types.ts 29-36). -/
structure MongoVectorStoreConfig where
  connectionString : String
  databaseName : String
  collectionName : String
  indexName : String := "vector_index"
  dimensions : Nat := 1536
  similarityMetric : SimilarityMetric := .cosine
deriving DecidableEq

/-- VectorData record passed to upsert (vector-store types.ts 11-15). -/
structure VectorData where
  id : String
  values : List Rat
  metadata : MetaBag
deriving DecidableEq

/-- MongoVectorDocument (vector-store types.ts 44-59); timestamps are
modelled as an abstract clock value. -/
structure MongoVectorDocument where
  docId : String
  content : String
  embedding : List Rat
  metadata : MetaBag
  createdAt : Nat
  updatedAt : Nat
deriving DecidableEq

/-- VectorStoreStats (vector-store types.ts 23-27); indexSize comes from
db.stats and is outside the model. -/
structure VectorStoreStats where
  totalVectors : Nat
  dimensions : Nat
deriving DecidableEq

/-- Document built from one VectorData inside MongoDBVectorStore.upsert
(part_001 lines 74-89): content defaults from metadata.content, the
embedding is the values array unmodified, and the metadata spread leaves
the bag equal to the record's own metadata (the six explicitly listed
fields are re-supplied with the same values by the trailing spread). -/
def toDocument (now : Nat) (vector : VectorData) : MongoVectorDocument :=
  { docId := vector.id
    content := vector.metadata.content.getD ""
    embedding := vector.values
    metadata := vector.metadata
    createdAt := now
    updatedAt := now }

/-- One ordered bulkWrite operation of upsert: replaceOne with filter
on _id and upsert: true — replace the matching document in place, or
append when the id is absent. -/
def replaceOneUpsert : List MongoVectorDocument → MongoVectorDocument →
    List MongoVectorDocument
  | [], d => [d]
  | doc :: rest, d =>
    if doc.docId = d.docId then d :: rest else doc :: replaceOneUpsert rest d

/-- MongoDBVectorStore.upsert (part_001 lines 73-106): map every record
to a document and run the ordered replaceOne operations. The method reads
no dimensionality information from the configuration and performs no
validation; with the backend reachable the call always succeeds. -/
def upsert (config : MongoVectorStoreConfig) (collection : List MongoVectorDocument)
    (now : Nat) (vectors : List VectorData) : Except String (List MongoVectorDocument) :=
  .ok ((vectors.map (toDocument now)).foldl replaceOneUpsert collection)

/-- MongoDBVectorStore.delete (part_001 lines 176-184): deleteMany with
filter _id ∈ ids. -/
def deleteMany (collection : List MongoVectorDocument) (ids : List String) :
    List MongoVectorDocument :=
  collection.filter (fun doc => !ids.contains doc.docId)

/-- MongoDBVectorStore.getStats (part_001 lines 186-200): countDocuments
plus the configured dimensions. -/
def getStats (config : MongoVectorStoreConfig) (collection : List MongoVectorDocument) :
    VectorStoreStats :=
  { totalVectors := collection.length, dimensions := config.dimensions }

/-- Lookup of a stored document by _id. -/
def findDoc (collection : List MongoVectorDocument) (id : String) :
    Option MongoVectorDocument :=
  collection.find? (fun doc => doc.docId = id)

/-- Configuration fixture for witnesses: an index configured with
dimensionality 3. -/
def cfgW : MongoVectorStoreConfig :=
  { connectionString := "mongodb://localhost"
    databaseName := "db"
    collectionName := "embeddings"
    indexName := "vector_index"
    dimensions := 3
    similarityMetric := .cosine }

/-- Collection fixture for witnesses. -/
def colW : List MongoVectorDocument :=
  [{ docId := "a", content := "ca", embedding := [1, 2, 3], metadata := {},
     createdAt := 0, updatedAt := 0 },
   { docId := "b", content := "cb", embedding := [4, 5, 6], metadata := {},
     createdAt := 0, updatedAt := 0 }]

/-- Field predicate of a Mongo filter document: the operators the
translation emits on one field path ($eq, $gte, $lte). -/
structure FieldPred where
  eqOp : Option FVal := none
  gteOp : Option FVal := none
  lteOp : Option FVal := none
deriving DecidableEq, Inhabited

/-- Destructured min component of a startTimeRange value (the TS code
destructures const { min, max } = value; a non-object value yields
undefined components). -/
def timeRangeMin : FVal → Option Rat
  | .timeRange mn _ => mn
  | _ => none

/-- Destructured max component of a startTimeRange value. -/
def timeRangeMax : FVal → Option Rat
  | .timeRange _ mx => mx
  | _ => none

/-- One iteration of the loop of MongoDBVectorStore.buildFilterQuery
(part_001 lines 150-171), processing a single filter entry in object
iteration order. videoId/playlistId and unrecognized keys assign a fresh
equality predicate object (replacing any previous value of that output
field); publishedAfter/publishedBefore read-modify-write the shared
metadata.publishedAt object; startTimeRange assigns a fresh bounds object
on metadata.startTime with only the defined components. -/
def filterStep (filterQuery : List (String × FieldPred)) (e : String × FVal) :
    List (String × FieldPred) :=
  if e.1 = "videoId" ∨ e.1 = "playlistId" then
    objSet filterQuery ("metadata." ++ e.1) { eqOp := some e.2 }
  else if e.1 = "publishedAfter" then
    objSet filterQuery "metadata.publishedAt"
      { (objGet filterQuery "metadata.publishedAt").getD {} with gteOp := some e.2 }
  else if e.1 = "publishedBefore" then
    objSet filterQuery "metadata.publishedAt"
      { (objGet filterQuery "metadata.publishedAt").getD {} with lteOp := some e.2 }
  else if e.1 = "startTimeRange" then
    objSet filterQuery "metadata.startTime"
      { gteOp := (timeRangeMin e.2).map FVal.num,
        lteOp := (timeRangeMax e.2).map FVal.num }
  else
    objSet filterQuery ("metadata." ++ e.1) { eqOp := some e.2 }

/-- MongoDBVectorStore.buildFilterQuery (part_001 lines 147-174): fold
the filter object's entries into a Mongo filter document. -/
def buildFilterQuery (filters : List (String × FVal)) : List (String × FieldPred) :=
  filters.foldl filterStep []

/-- Translation table stated by the specification, per output field path:
videoId/playlistId and unrecognized keys become equality predicates on
metadata.<key>; publishedAfter/publishedBefore become inclusive bounds on
metadata.publishedAt; startTimeRange becomes inclusive bounds on
metadata.startTime, each bound only when defined. -/
def specFilterTranslation (filters : List (String × FVal)) (field : String) :
    Option FieldPred :=
  if field = "metadata.publishedAt" then
    match objGet filters "publishedAfter", objGet filters "publishedBefore" with
    | none, none => none
    | a, b => some { gteOp := a, lteOp := b }
  else if field = "metadata.startTime" then
    match objGet filters "startTimeRange" with
    | some v => some { gteOp := (timeRangeMin v).map FVal.num,
                       lteOp := (timeRangeMax v).map FVal.num }
    | none => none
  else
    match filters.find? (fun e => decide (e.1 ≠ "publishedAfter") &&
        decide (e.1 ≠ "publishedBefore") && decide (e.1 ≠ "startTimeRange") &&
        decide ("metadata." ++ e.1 = field)) with
    | some e => some { eqOp := some e.2 }
    | none => none

/-- Ordering of metadata values as compared by the range operators
(numbers numerically, strings — e.g. ISO dates — lexicographically). -/
def fvalLe : FVal → FVal → Bool
  | .num a, .num b => a ≤ b
  | .str a, .str b => a ≤ b
  | _, _ => false

/-- Satisfaction of one field predicate by a document's value at that
field ($eq, $gte and $lte are themselves conjoined). -/
def matchesFieldPred (value : Option FVal) (p : FieldPred) : Bool :=
  (match p.eqOp with
   | some w => value == some w
   | none => true) &&
  (match p.gteOp with
   | some w => (match value with | some v => fvalLe w v | none => false)
   | none => true) &&
  (match p.lteOp with
   | some w => (match value with | some v => fvalLe v w | none => false)
   | none => true)

/-- Satisfaction of a whole filter document: the conjunction of all its
field predicates (Mongo's implicit top-level AND). -/
def matchesFilterQuery (doc : String → Option FVal) (q : List (String × FieldPred)) : Bool :=
  q.all (fun e => matchesFieldPred (doc e.1) e.2)

/-- Heap read: JS object references are indices into an allocation list
of SearchResult objects. -/
def heapGet (h : List SearchResult) (ref : Nat) : SearchResult := h.getD ref default

/-- Heap write through a reference (mutation of one object in place). -/
def heapSet (h : List SearchResult) (ref : Nat) (v : SearchResult) : List SearchResult :=
  h.set ref v

/-- Reference-level step of the vector loop of combineResults: the spread
copy allocates a fresh object with the weighted score and the map stores
a reference to the copy, never to the input object. -/
def vectorStepRef (vectorWeight minScore : Rat)
    (s : List SearchResult × List (String × Nat)) (ref : Nat) :
    List SearchResult × List (String × Nat) :=
  let r := heapGet s.1 ref
  if r.score ≥ minScore then
    (s.1 ++ [{ r with score := r.score * vectorWeight }], objSet s.2 r.id s.1.length)
  else s

/-- Reference-level step of the text loop of combineResults: on overlap
the entry's object (a copy made by the vector loop) is mutated in place
through the stored reference; otherwise a fresh copy is allocated. -/
def textStepRef (textWeight minScore : Rat)
    (s : List SearchResult × List (String × Nat)) (ref : Nat) :
    List SearchResult × List (String × Nat) :=
  let r := heapGet s.1 ref
  if r.score ≥ minScore then
    match objGet s.2 r.id with
    | some eref =>
      let existing := heapGet s.1 eref
      (heapSet s.1 eref { existing with score := existing.score + r.score * textWeight }, s.2)
    | none =>
      (s.1 ++ [{ r with score := r.score * textWeight }], objSet s.2 r.id s.1.length)
  else s

/-- Reference-level insertion into a descending run (sorting references
by the score of the object they point to). -/
def insertDescRef (h : List SearchResult) (a : Nat) : List Nat → List Nat
  | [] => [a]
  | b :: l =>
    if (heapGet h b).score ≤ (heapGet h a).score then a :: b :: l
    else b :: insertDescRef h a l

/-- Reference-level sort of the merge map's values, descending by score. -/
def sortRefsByScoreDesc (h : List SearchResult) : List Nat → List Nat
  | [] => []
  | a :: l => insertDescRef h a (sortRefsByScoreDesc h l)

/-- Reference-level combineResults: both loops over the leg reference
arrays, then the sort of the merge map's values; returns the final heap
and the references of the fused list. -/
def combineResultsRef (h : List SearchResult) (vectorRefs textRefs : List Nat)
    (vectorWeight textWeight minScore : Rat) : List SearchResult × List Nat :=
  let s1 := vectorRefs.foldl (vectorStepRef vectorWeight minScore) (h, [])
  let s2 := textRefs.foldl (textStepRef textWeight minScore) s1
  (s2.1, sortRefsByScoreDesc s2.1 (s2.2.map Prod.snd))

/-- Reference-level search result assembly: the returned
HybridSearchResult holds the two leg reference arrays as given and the
fused references truncated to topK. -/
def searchRef (h : List SearchResult) (vectorRefs textRefs : List Nat) (topK : Int)
    (options : SearchOptions) : List SearchResult × (List Nat × List Nat × List Nat) :=
  let c := combineResultsRef h vectorRefs textRefs
    options.vectorWeight options.textWeight options.minScore
  (c.1, (vectorRefs, textRefs, jsSliceTo c.2 topK))

/-- Frame invariant of the reference-level fusion state: every cell of
the original heap is untouched, the heap only grew, and every reference
held by the merge map points at a freshly allocated cell. -/
def RefFrameInv (h0 : List SearchResult)
    (s : List SearchResult × List (String × Nat)) : Prop :=
  (∀ i, i < h0.length → heapGet s.1 i = heapGet h0 i) ∧
  h0.length ≤ s.1.length ∧
  ∀ p ∈ s.2, h0.length ≤ p.2 ∧ p.2 < s.1.length

/-- Invariant of the fusion merge map: keys are pairwise distinct and
every entry is keyed by its value's id. -/
def FusionInv (m : List (String × SearchResult)) : Prop :=
  (m.map Prod.fst).Nodup ∧ ∀ p ∈ m, p.1 = p.2.id

theorem objGet_objSet_self {β : Type} (m : List (String × β)) (k : String) (v : β) :
    objGet (objSet m k v) k = some v := by
  induction m with
  | nil => simp [objGet, objSet]
  | cons p rest ih =>
    by_cases h : p.1 = k
    · simp [objGet, objSet, h]
    · simp [objGet, objSet, h, ih]

theorem objGet_objSet_ne {β : Type} (m : List (String × β)) {k k' : String} (v : β)
    (h : k' ≠ k) : objGet (objSet m k v) k' = objGet m k' := by
  have hk : k ≠ k' := Ne.symm h
  induction m with
  | nil => simp [objGet, objSet, hk]
  | cons p rest ih =>
    by_cases hp : p.1 = k
    · have hp' : p.1 ≠ k' := by rw [hp]; exact hk
      simp [objGet, objSet, hp, hp', hk]
    · by_cases hp' : p.1 = k'
      · simp [objGet, objSet, hp, hp', h]
      · simp [objGet, objSet, hp, hp', ih]

theorem mem_objSet {β : Type} (m : List (String × β)) (k : String) (v : β)
    (p : String × β) (hp : p ∈ objSet m k v) : p = (k, v) ∨ p ∈ m := by
  induction m with
  | nil => simpa [objSet] using hp
  | cons q rest ih =>
    by_cases h : q.1 = k
    · rw [objSet, if_pos h] at hp
      rcases List.mem_cons.mp hp with h1 | h1
      · exact Or.inl h1
      · exact Or.inr (List.mem_cons_of_mem _ h1)
    · rw [objSet, if_neg h] at hp
      rcases List.mem_cons.mp hp with h1 | h1
      · exact Or.inr (h1 ▸ List.mem_cons_self _ _)
      · rcases ih h1 with h2 | h2
        · exact Or.inl h2
        · exact Or.inr (List.mem_cons_of_mem _ h2)

theorem keys_objSet_nodup {β : Type} (m : List (String × β)) (k : String) (v : β)
    (h : (m.map Prod.fst).Nodup) : ((objSet m k v).map Prod.fst).Nodup := by
  induction m with
  | nil => simp [objSet]
  | cons p rest ih =>
    by_cases hp : p.1 = k
    · rw [objSet, if_pos hp]
      simpa [hp] using h
    · rw [objSet, if_neg hp]
      rw [List.map_cons, List.nodup_cons] at h ⊢
      refine ⟨fun hmem => ?_, ih h.2⟩
      rcases List.mem_map.mp hmem with ⟨q, hq, hq1⟩
      rcases mem_objSet rest k v q hq with h1 | h1
      · exact hp (by rw [← hq1, h1])
      · exact h.1 (List.mem_map.mpr ⟨q, h1, hq1⟩)

theorem objGet_mem {β : Type} (m : List (String × β)) (k : String) (v : β)
    (h : objGet m k = some v) : (k, v) ∈ m := by
  induction m with
  | nil => simp [objGet] at h
  | cons p rest ih =>
    by_cases hp : p.1 = k
    · rw [objGet, if_pos hp] at h
      have : p = (k, v) := Prod.ext hp (Option.some_injective _ h)
      exact this ▸ List.mem_cons_self _ _
    · rw [objGet, if_neg hp] at h
      exact List.mem_cons_of_mem _ (ih h)

theorem mem_objGet_of_nodup {β : Type} (m : List (String × β)) (k : String) (v : β)
    (hnd : (m.map Prod.fst).Nodup) (h : (k, v) ∈ m) : objGet m k = some v := by
  induction m with
  | nil => simp at h
  | cons p rest ih =>
    rw [List.map_cons, List.nodup_cons] at hnd
    rcases List.mem_cons.mp h with h1 | h1
    · rw [objGet, if_pos (by rw [← h1])]
      rw [← h1]
    · have hp : p.1 ≠ k := by
        intro hpk
        exact hnd.1 (List.mem_map.mpr ⟨(k, v), h1, hpk.symm⟩)
      rw [objGet, if_neg hp]
      exact ih hnd.2 h1

theorem perm_insertDesc (a : SearchResult) (l : List SearchResult) :
    List.Perm (insertDesc a l) (a :: l) := by
  induction l with
  | nil => simp [insertDesc]
  | cons b l ih =>
    by_cases h : b.score ≤ a.score
    · simp [insertDesc, h]
    · rw [insertDesc, if_neg h]
      exact (ih.cons b).trans (List.Perm.swap a b l)

theorem perm_sortByScoreDesc (l : List SearchResult) :
    List.Perm (sortByScoreDesc l) l := by
  induction l with
  | nil => simp [sortByScoreDesc]
  | cons a l ih =>
    exact (perm_insertDesc a (sortByScoreDesc l)).trans (ih.cons a)

theorem sorted_insertDesc (a : SearchResult) (l : List SearchResult)
    (h : l.Pairwise scoreGe) : (insertDesc a l).Pairwise scoreGe := by
  induction l with
  | nil => simp [insertDesc, List.Pairwise]
  | cons b l ih =>
    rcases List.pairwise_cons.mp h with ⟨hb, hl⟩
    by_cases hba : b.score ≤ a.score
    · rw [insertDesc, if_pos hba]
      refine List.pairwise_cons.mpr ⟨?_, h⟩
      intro c hc
      rcases List.mem_cons.mp hc with h1 | h1
      · exact h1 ▸ hba
      · exact le_trans (hb c h1) hba
    · rw [insertDesc, if_neg hba]
      refine List.pairwise_cons.mpr ⟨?_, ih hl⟩
      intro c hc
      rcases List.mem_cons.mp ((perm_insertDesc a l).mem_iff.mp hc) with h1 | h1
      · exact h1 ▸ le_of_lt (lt_of_not_le hba)
      · exact hb c h1

theorem sorted_sortByScoreDesc (l : List SearchResult) :
    (sortByScoreDesc l).Pairwise scoreGe := by
  induction l with
  | nil => simp [sortByScoreDesc]
  | cons a l ih => exact sorted_insertDesc a (sortByScoreDesc l) ih

example :
    combineResults
      [{ id := "a", content := "", score := 9/10 }, { id := "b", content := "", score := 6/10 }]
      [{ id := "b", content := "", score := 8/10 }, { id := "c", content := "", score := 7/10 }]
      (7/10) (3/10) (1/2)
    = [{ id := "b", content := "", score := 66/100 },
       { id := "a", content := "", score := 63/100 },
       { id := "c", content := "", score := 21/100 }] := by
  norm_num [combineResults, vectorStep, textStep, objGet, objSet,
    sortByScoreDesc, insertDesc]

theorem objGet_vector_phase (vectorWeight minScore : Rat)
    (vectorResults : List SearchResult) (m0 : List (String × SearchResult)) (x : String) :
    objGet (vectorResults.foldl (vectorStep vectorWeight minScore) m0) x =
      match (vectorResults.filter
          (fun r => decide (r.score ≥ minScore) && decide (r.id = x))).getLast? with
      | some r => some { r with score := r.score * vectorWeight }
      | none => objGet m0 x := by
  induction vectorResults using List.reverseRecOn with
  | nil => simp
  | append_singleton l r ih =>
    rw [List.foldl_append, List.foldl_cons, List.foldl_nil, List.filter_append,
      List.getLast?_append]
    by_cases hs : r.score ≥ minScore
    · by_cases hx : r.id = x
      · subst hx
        rw [vectorStep, if_pos hs]
        simp [hs, objGet_objSet_self]
      · rw [vectorStep, if_pos hs, objGet_objSet_ne _ _ (fun h => hx h.symm)]
        simp [hs, hx, ih]
    · rw [vectorStep, if_neg hs]
      simp [hs, ih]

theorem objGet_text_phase_absent (textWeight minScore : Rat)
    (textResults : List SearchResult) (m : List (String × SearchResult)) (x : String)
    (h : ∀ r ∈ textResults, r.id ≠ x) :
    objGet (textResults.foldl (textStep textWeight minScore) m) x = objGet m x := by
  induction textResults generalizing m with
  | nil => rfl
  | cons r rest ih =>
    have hr : r.id ≠ x := h r (List.mem_cons_self _ _)
    have hstep : objGet (textStep textWeight minScore m r) x = objGet m x := by
      rw [textStep]
      by_cases hs : r.score ≥ minScore
      · rw [if_pos hs]
        cases objGet m r.id with
        | some existing => exact objGet_objSet_ne _ _ (Ne.symm hr)
        | none => exact objGet_objSet_ne _ _ (Ne.symm hr)
      · rw [if_neg hs]
    rw [List.foldl_cons, ih _ (fun q hq => h q (List.mem_cons_of_mem _ hq)), hstep]

theorem objGet_text_phase_once (textWeight minScore : Rat)
    (l1 l2 : List SearchResult) (rt : SearchResult)
    (m : List (String × SearchResult)) (x : String)
    (h1 : ∀ r ∈ l1, r.id ≠ x) (h2 : ∀ r ∈ l2, r.id ≠ x) (hrt : rt.id = x) :
    objGet ((l1 ++ rt :: l2).foldl (textStep textWeight minScore) m) x =
      if rt.score ≥ minScore then
        match objGet m x with
        | some existing =>
            some { existing with score := existing.score + rt.score * textWeight }
        | none => some { rt with score := rt.score * textWeight }
      else objGet m x := by
  rw [List.foldl_append, List.foldl_cons]
  rw [objGet_text_phase_absent _ _ l2 _ x h2]
  have hm1 : objGet (l1.foldl (textStep textWeight minScore) m) x = objGet m x :=
    objGet_text_phase_absent _ _ l1 m x h1
  by_cases hs : rt.score ≥ minScore
  · rw [if_pos hs, textStep, if_pos hs, hrt, hm1]
    cases objGet m x with
    | some existing => exact objGet_objSet_self _ _ _
    | none => exact objGet_objSet_self _ _ _
  · rw [if_neg hs, textStep, if_neg hs, hm1]

theorem fusionInv_vectorStep (vectorWeight minScore : Rat)
    (m : List (String × SearchResult)) (r : SearchResult) (h : FusionInv m) :
    FusionInv (vectorStep vectorWeight minScore m r) := by
  rw [vectorStep]
  by_cases hs : r.score ≥ minScore
  · rw [if_pos hs]
    refine ⟨keys_objSet_nodup _ _ _ h.1, fun p hp => ?_⟩
    rcases mem_objSet _ _ _ _ hp with h1 | h1
    · rw [h1]
    · exact h.2 p h1
  · rw [if_neg hs]; exact h

theorem fusionInv_textStep (textWeight minScore : Rat)
    (m : List (String × SearchResult)) (r : SearchResult) (h : FusionInv m) :
    FusionInv (textStep textWeight minScore m r) := by
  rw [textStep]
  by_cases hs : r.score ≥ minScore
  · rw [if_pos hs]
    cases hg : objGet m r.id with
    | some existing =>
      have hex : r.id = existing.id := h.2 _ (objGet_mem _ _ _ hg)
      refine ⟨keys_objSet_nodup _ _ _ h.1, fun p hp => ?_⟩
      rcases mem_objSet _ _ _ _ hp with h1 | h1
      · rw [h1]; exact hex
      · exact h.2 p h1
    | none =>
      refine ⟨keys_objSet_nodup _ _ _ h.1, fun p hp => ?_⟩
      rcases mem_objSet _ _ _ _ hp with h1 | h1
      · rw [h1]
      · exact h.2 p h1
  · rw [if_neg hs]; exact h

theorem fusionInv_m2 (vectorResults textResults : List SearchResult)
    (vectorWeight textWeight minScore : Rat) :
    FusionInv (textResults.foldl (textStep textWeight minScore)
      (vectorResults.foldl (vectorStep vectorWeight minScore) [])) := by
  have h1 : FusionInv (vectorResults.foldl (vectorStep vectorWeight minScore) []) := by
    induction vectorResults using List.reverseRecOn with
    | nil => exact ⟨List.nodup_nil, by simp⟩
    | append_singleton l r ih =>
      rw [List.foldl_append, List.foldl_cons, List.foldl_nil]
      exact fusionInv_vectorStep _ _ _ _ ih
  induction textResults using List.reverseRecOn with
  | nil => exact h1
  | append_singleton l r ih =>
    rw [List.foldl_append, List.foldl_cons, List.foldl_nil]
    exact fusionInv_textStep _ _ _ _ ih

/-- Bridge from a merge-map lookup to the sorted fusion output: the found
value is an element of combineResults, is the unique element with its
key as id, and is keyed by its own id. -/
theorem combineResults_entry (vectorResults textResults : List SearchResult)
    (vectorWeight textWeight minScore : Rat) (x : String) (o : SearchResult)
    (hget : objGet (textResults.foldl (textStep textWeight minScore)
        (vectorResults.foldl (vectorStep vectorWeight minScore) [])) x = some o) :
    o.id = x ∧
    o ∈ combineResults vectorResults textResults vectorWeight textWeight minScore ∧
    ∀ oo ∈ combineResults vectorResults textResults vectorWeight textWeight minScore,
      oo.id = x → oo = o := by
  have hinv := fusionInv_m2 vectorResults textResults vectorWeight textWeight minScore
  have hmem : (x, o) ∈ textResults.foldl (textStep textWeight minScore)
      (vectorResults.foldl (vectorStep vectorWeight minScore) []) := objGet_mem _ _ _ hget
  have hid : o.id = x := (hinv.2 _ hmem).symm
  refine ⟨hid, ?_, ?_⟩
  · rw [combineResults]
    exact (perm_sortByScoreDesc _).mem_iff.mpr (List.mem_map.mpr ⟨(x, o), hmem, rfl⟩)
  · intro oo hoo hooid
    rw [combineResults] at hoo
    rcases List.mem_map.mp ((perm_sortByScoreDesc _).mem_iff.mp hoo) with ⟨p, hp, hpo⟩
    have hpkey : p.1 = x := by rw [hinv.2 p hp, hpo, hooid]
    have : objGet (textResults.foldl (textStep textWeight minScore)
        (vectorResults.foldl (vectorStep vectorWeight minScore) [])) x = some p.2 := by
      rw [← hpkey]
      exact mem_objGet_of_nodup _ _ _ hinv.1 (by exact hp)
    rw [hget] at this
    rw [← hpo]
    exact (Option.some_injective _ this).symm

/-- Lookup of the fully fused merge map for an id that occurs exactly once
in each leg with both native scores passing minScore. -/
theorem objGet_fusion_both (vectorResults textResults : List SearchResult)
    (vectorWeight textWeight minScore : Rat) (x : String) (rv rt : SearchResult)
    (hv : vectorResults.filter (fun r => r.id = x) = [rv])
    (ht : textResults.filter (fun r => r.id = x) = [rt])
    (hsv : rv.score ≥ minScore) (hst : rt.score ≥ minScore) :
    objGet (textResults.foldl (textStep textWeight minScore)
        (vectorResults.foldl (vectorStep vectorWeight minScore) [])) x =
      some { rv with score := rv.score * vectorWeight + rt.score * textWeight } := by
  rcases List.filter_eq_cons_iff.mp ht with ⟨l1, l2, htrs, hl1, hprt, hl2⟩
  have hrt : rt.id = x := of_decide_eq_true hprt
  have hl2' : ∀ r ∈ l2, r.id ≠ x := by
    intro r hr
    have := List.filter_eq_nil_iff.mp hl2 r hr
    simpa using this
  have hl1' : ∀ r ∈ l1, r.id ≠ x := by
    intro r hr
    have := hl1 r hr
    simpa using this
  have hm1 : objGet (vectorResults.foldl (vectorStep vectorWeight minScore) []) x =
      some { rv with score := rv.score * vectorWeight } := by
    rw [objGet_vector_phase]
    have hff : vectorResults.filter
        (fun r => decide (r.score ≥ minScore) && decide (r.id = x)) =
        (vectorResults.filter (fun r => r.id = x)).filter
          (fun r => decide (r.score ≥ minScore)) := by
      rw [List.filter_filter]
    rw [hff, hv]
    simp [hsv]
  rw [htrs, objGet_text_phase_once _ _ l1 l2 rt _ x hl1' hl2' hrt, if_pos hst, hm1]

/-- C1: an id that passes the minScore gate on both legs gets the sum of
the two weighted native scores: its (unique) entry in the fusion output
of combineResults has score sv * vectorWeight + st * textWeight. -/
theorem C1_both_legs_scores_accumulate (vectorResults textResults : List SearchResult)
    (vectorWeight textWeight minScore : Rat) (x : String) (rv rt : SearchResult)
    (hv : vectorResults.filter (fun r => r.id = x) = [rv])
    (ht : textResults.filter (fun r => r.id = x) = [rt])
    (hsv : rv.score ≥ minScore) (hst : rt.score ≥ minScore) :
    (∃ o ∈ combineResults vectorResults textResults vectorWeight textWeight minScore,
      o.id = x ∧ o.score = rv.score * vectorWeight + rt.score * textWeight) ∧
    ∀ o ∈ combineResults vectorResults textResults vectorWeight textWeight minScore,
      o.id = x → o.score = rv.score * vectorWeight + rt.score * textWeight := by
  have hget := objGet_fusion_both vectorResults textResults vectorWeight textWeight
    minScore x rv rt hv ht hsv hst
  have hentry := combineResults_entry vectorResults textResults vectorWeight textWeight
    minScore x _ hget
  refine ⟨⟨_, hentry.2.1, hentry.1, rfl⟩, fun o ho hoid => ?_⟩
  rw [hentry.2.2 o ho hoid]

/-- C10: when an id passes the gate on both legs, the fused entry keeps
every non-score field of the vector-leg result; the text-leg result
contributes only its weighted score term. -/
theorem C10_both_legs_vector_fields_win (vectorResults textResults : List SearchResult)
    (vectorWeight textWeight minScore : Rat) (x : String) (rv rt : SearchResult)
    (hv : vectorResults.filter (fun r => r.id = x) = [rv])
    (ht : textResults.filter (fun r => r.id = x) = [rt])
    (hsv : rv.score ≥ minScore) (hst : rt.score ≥ minScore) :
    ∃ o ∈ combineResults vectorResults textResults vectorWeight textWeight minScore,
      o.id = x ∧ o.content = rv.content ∧ o.videoId = rv.videoId ∧
      o.videoTitle = rv.videoTitle ∧ o.timestamp = rv.timestamp ∧ o.url = rv.url ∧
      o.playlistId = rv.playlistId ∧ o.publishedAt = rv.publishedAt ∧
      o.score = rv.score * vectorWeight + rt.score * textWeight ∧
      (∀ oo ∈ combineResults vectorResults textResults vectorWeight textWeight minScore,
        oo.id = x → oo = o) := by
  have hget := objGet_fusion_both vectorResults textResults vectorWeight textWeight
    minScore x rv rt hv ht hsv hst
  have hentry := combineResults_entry vectorResults textResults vectorWeight textWeight
    minScore x _ hget
  exact ⟨_, hentry.2.1, hentry.1, rfl, rfl, rfl, rfl, rfl, rfl, rfl, rfl, hentry.2.2⟩

/-- C3: the minScore gate is applied to each leg's native, pre-weight
score: a leg result whose native score is strictly below minScore
contributes nothing at all — removing it from its leg leaves the fusion
output of combineResults unchanged. -/
theorem C3_below_min_score_contributes_nothing
    (v1 v2 textResults t1 t2 vectorResults : List SearchResult)
    (vectorWeight textWeight minScore : Rat) (rv rt : SearchResult)
    (hsv : rv.score < minScore) (hst : rt.score < minScore) :
    combineResults (v1 ++ rv :: v2) textResults vectorWeight textWeight minScore =
      combineResults (v1 ++ v2) textResults vectorWeight textWeight minScore ∧
    combineResults vectorResults (t1 ++ rt :: t2) vectorWeight textWeight minScore =
      combineResults vectorResults (t1 ++ t2) vectorWeight textWeight minScore := by
  constructor
  · rw [combineResults, combineResults]
    rw [List.foldl_append, List.foldl_append, List.foldl_cons]
    rw [vectorStep, if_neg (not_le.mpr hsv)]
  · rw [combineResults, combineResults]
    rw [List.foldl_append, List.foldl_append, List.foldl_cons]
    rw [textStep, if_neg (not_le.mpr hst)]

theorem C1_both_legs_scores_accumulate_witness :
    (vrsW.filter (fun r => r.id = "b") = [rvW] ∧
      trsW.filter (fun r => r.id = "b") = [rtW] ∧
      rvW.score ≥ (5 : Rat) ∧ rtW.score ≥ (5 : Rat)) ∧
    ((∃ o ∈ combineResults vrsW trsW 7 3 5, o.id = "b" ∧
        o.score = rvW.score * 7 + rtW.score * 3) ∧
      ∀ o ∈ combineResults vrsW trsW 7 3 5, o.id = "b" →
        o.score = rvW.score * 7 + rtW.score * 3) :=
  ⟨⟨by decide, by decide, by decide, by decide⟩,
    C1_both_legs_scores_accumulate vrsW trsW 7 3 5 "b" rvW rtW
      (by decide) (by decide) (by decide) (by decide)⟩

theorem C10_both_legs_vector_fields_win_witness :
    (vrsW.filter (fun r => r.id = "b") = [rvW] ∧
      trsW.filter (fun r => r.id = "b") = [rtW] ∧
      rvW.score ≥ (5 : Rat) ∧ rtW.score ≥ (5 : Rat)) ∧
    (∃ o ∈ combineResults vrsW trsW 7 3 5, o.id = "b" ∧ o.content = rvW.content ∧
      o.videoId = rvW.videoId ∧ o.videoTitle = rvW.videoTitle ∧
      o.timestamp = rvW.timestamp ∧ o.url = rvW.url ∧ o.playlistId = rvW.playlistId ∧
      o.publishedAt = rvW.publishedAt ∧ o.score = rvW.score * 7 + rtW.score * 3 ∧
      (∀ oo ∈ combineResults vrsW trsW 7 3 5, oo.id = "b" → oo = o)) :=
  ⟨⟨by decide, by decide, by decide, by decide⟩,
    C10_both_legs_vector_fields_win vrsW trsW 7 3 5 "b" rvW rtW
      (by decide) (by decide) (by decide) (by decide)⟩

theorem C3_below_min_score_contributes_nothing_witness :
    ((2 : Rat) < 5 ∧ (3 : Rat) < 5) ∧
    (combineResults ([{ id := "a", content := "va", score := 9 }] ++
        { id := "low", content := "lv", score := 2 } :: []) trsW 7 3 5 =
      combineResults ([{ id := "a", content := "va", score := 9 }] ++ []) trsW 7 3 5 ∧
    combineResults vrsW ([] ++
        { id := "lowt", content := "lt", score := 3 } :: trsW) 7 3 5 =
      combineResults vrsW ([] ++ trsW) 7 3 5) :=
  ⟨⟨by decide, by decide⟩,
    C3_below_min_score_contributes_nothing
      [{ id := "a", content := "va", score := 9 }] [] trsW [] trsW vrsW 7 3 5
      { id := "low", content := "lv", score := 2 }
      { id := "lowt", content := "lt", score := 3 } (by decide) (by decide)⟩

theorem findDoc_replaceOneUpsert (collection : List MongoVectorDocument)
    (d : MongoVectorDocument) (x : String) :
    findDoc (replaceOneUpsert collection d) x =
      if d.docId = x then some d else findDoc collection x := by
  induction collection with
  | nil =>
    by_cases h : d.docId = x
    · simp [findDoc, replaceOneUpsert, List.find?, h]
    · simp [findDoc, replaceOneUpsert, List.find?, h]
  | cons doc rest ih =>
    by_cases hdoc : doc.docId = d.docId
    · rw [replaceOneUpsert, if_pos hdoc]
      by_cases hx : d.docId = x
      · simp [findDoc, List.find?, hx]
      · have hdx : doc.docId ≠ x := by rw [hdoc]; exact hx
        simp [findDoc, List.find?, hx, hdx]
    · rw [replaceOneUpsert, if_neg hdoc]
      by_cases hdx : doc.docId = x
      · have hne : d.docId ≠ x := by rw [← hdx]; exact fun h => hdoc h.symm
        simp [findDoc, List.find?, hdx, hne]
      · simp only [findDoc, List.find?] at ih ⊢
        simp [hdx, ih]

theorem findDoc_upsert_fold (now : Nat) (vectors : List VectorData)
    (collection : List MongoVectorDocument) (x : String) :
    findDoc ((vectors.map (toDocument now)).foldl replaceOneUpsert collection) x =
      match (vectors.filter (fun v => v.id = x)).getLast? with
      | some v => some (toDocument now v)
      | none => findDoc collection x := by
  induction vectors using List.reverseRecOn with
  | nil => simp
  | append_singleton l v ih =>
    rw [List.map_append, List.foldl_append, List.filter_append]
    simp only [List.map_cons, List.map_nil, List.foldl_cons, List.foldl_nil,
      List.getLast?_append]
    rw [findDoc_replaceOneUpsert]
    by_cases hx : v.id = x
    · simp [toDocument, hx]
    · simp [toDocument, hx, ih]

theorem filter_id_eq_of_nodup (l : List VectorData) (v : VectorData)
    (hnd : (l.map VectorData.id).Nodup) (hv : v ∈ l) :
    l.filter (fun u => u.id = v.id) = [v] := by
  induction l with
  | nil => simp at hv
  | cons u rest ih =>
    rw [List.map_cons, List.nodup_cons] at hnd
    rcases List.mem_cons.mp hv with h1 | h1
    · subst h1
      have hrest : rest.filter (fun u2 => u2.id = v.id) = [] := by
        rw [List.filter_eq_nil_iff]
        intro a ha hid
        exact hnd.1 (List.mem_map.mpr ⟨a, ha, of_decide_eq_true hid⟩)
      simp [List.filter_cons, hrest]
    · have hne : u.id ≠ v.id := by
        intro h
        exact hnd.1 (h ▸ List.mem_map.mpr ⟨v, h1, rfl⟩)
      simp [List.filter_cons, hne, ih hnd.2 h1]

/-- C6 counterexample: MongoDBVectorStore.upsert performs no
dimensionality check. With the index configured for dimensionality 3,
upserting a record whose values array has length 2 does not fail: it
succeeds and stores the 2-dimensional vector unmodified. -/
theorem C6_counterexample_no_dimension_check :
    cfgW.dimensions = 3 ∧
    [(1 : Rat), 2].length ≠ cfgW.dimensions ∧
    upsert cfgW [] 0 [{ id := "short", values := [1, 2], metadata := {} }] =
      .ok [{ docId := "short", content := "", embedding := [1, 2], metadata := {},
             createdAt := 0, updatedAt := 0 }] :=
  ⟨rfl, by decide, rfl⟩

/-- C6 amended: upsert validates nothing against the configured
dimensionality. For every batch (with the per-batch distinct ids a real
caller supplies), the call succeeds and each record is stored with its
values array as the embedding, unmodified — neither truncated nor padded
— regardless of whether its length matches config.dimensions. -/
theorem C6_upsert_stores_values_unmodified (config : MongoVectorStoreConfig)
    (collection : List MongoVectorDocument) (now : Nat) (vectors : List VectorData)
    (hnd : (vectors.map VectorData.id).Nodup) :
    ∃ stored, upsert config collection now vectors = .ok stored ∧
      ∀ v ∈ vectors, findDoc stored v.id = some (toDocument now v) ∧
        (toDocument now v).embedding = v.values := by
  refine ⟨_, rfl, fun v hv => ⟨?_, rfl⟩⟩
  rw [findDoc_upsert_fold, filter_id_eq_of_nodup vectors v hnd hv]
  simp

/-- Batch fixture for the C6 witness: one record of the configured
length 3 and one of mismatched length 2. -/
def vecsW : List VectorData :=
  [{ id := "short", values := [1, 2], metadata := {} },
   { id := "full", values := [1, 2, 3], metadata := {} }]

theorem C6_upsert_stores_values_unmodified_witness :
    (vecsW.map VectorData.id).Nodup ∧
    ∃ stored, upsert cfgW [] 0 vecsW = .ok stored ∧
      ∀ v ∈ vecsW, findDoc stored v.id = some (toDocument 0 v) ∧
        (toDocument 0 v).embedding = v.values :=
  ⟨by decide, C6_upsert_stores_values_unmodified cfgW [] 0 vecsW (by decide)⟩

/-- C8: deleting ids that are not present is a no-op and raises no error;
in general the store's totalVectors decreases exactly by the number of
stored documents whose id is in the deleted set, which (ids being unique
in a Mongo collection) is the number of distinct requested ids that
actually existed. -/
theorem C8_delete_missing_noop_count (config : MongoVectorStoreConfig)
    (collection : List MongoVectorDocument) (ids : List String) :
    ((∀ d ∈ collection, d.docId ∉ ids) → deleteMany collection ids = collection) ∧
    ((getStats config (deleteMany collection ids)).totalVectors +
        (collection.filter (fun d => ids.contains d.docId)).length =
      (getStats config collection).totalVectors) ∧
    ((collection.map MongoVectorDocument.docId).Nodup →
      (collection.filter (fun d => ids.contains d.docId)).length =
        (ids.dedup.filter (fun i => collection.any (fun d => d.docId = i))).length) := by
  refine ⟨fun h => ?_, ?_, fun hnd => ?_⟩
  · rw [deleteMany, List.filter_eq_self]
    intro d hd
    simp [h d hd]
  · show (deleteMany collection ids).length + _ = collection.length
    induction collection with
    | nil => rfl
    | cons d rest ih =>
      by_cases h : ids.contains d.docId
      · simp only [deleteMany, List.filter_cons, h] at ih ⊢
        simp [h] at ih ⊢
        omega
      · simp only [deleteMany, List.filter_cons, h] at ih ⊢
        simp [h] at ih ⊢
        omega
  · have h1 : ((collection.filter (fun d => ids.contains d.docId)).map
        MongoVectorDocument.docId).Nodup :=
      ((List.filter_sublist collection).map _).nodup hnd
    have h2 : (ids.dedup.filter (fun i => collection.any (fun d => d.docId = i))).Nodup :=
      (List.nodup_dedup ids).filter _
    have hmem : ∀ x,
        x ∈ (collection.filter (fun d => ids.contains d.docId)).map
          MongoVectorDocument.docId ↔
        x ∈ ids.dedup.filter (fun i => collection.any (fun d => d.docId = i)) := by
      intro x
      simp only [List.mem_map, List.mem_filter, List.mem_dedup, List.any_eq_true,
        decide_eq_true_eq, List.contains_iff_exists_mem_beq]
      constructor
      · rintro ⟨d, ⟨hd, i, hi, hbeq⟩, rfl⟩
        have hdi : d.docId = i := eq_of_beq hbeq
        exact ⟨by rw [hdi]; exact hi, d, hd, rfl⟩
      · rintro ⟨hx, d, hd, hdx⟩
        refine ⟨d, ⟨hd, x, hx, ?_⟩, hdx⟩
        rw [hdx]
        exact beq_self_eq_true x
    have hperm := (List.perm_ext_iff_of_nodup h1 h2).mpr hmem
    have hlen := hperm.length_eq
    rwa [List.length_map] at hlen

theorem C8_delete_missing_noop_count_witness :
    ((∀ d ∈ colW, d.docId ∉ ["zz"]) ∧ deleteMany colW ["zz"] = colW) ∧
    ((getStats cfgW (deleteMany colW ["b", "zz"])).totalVectors +
        (colW.filter (fun d => ["b", "zz"].contains d.docId)).length =
      (getStats cfgW colW).totalVectors) ∧
    ((colW.map MongoVectorDocument.docId).Nodup ∧
      (colW.filter (fun d => ["b", "zz"].contains d.docId)).length =
        (["b", "zz"].dedup.filter (fun i => colW.any (fun d => d.docId = i))).length) :=
  ⟨⟨by decide, (C8_delete_missing_noop_count cfgW colW ["zz"]).1 (by decide)⟩,
   (C8_delete_missing_noop_count cfgW colW ["b", "zz"]).2.1,
   by decide, (C8_delete_missing_noop_count cfgW colW ["b", "zz"]).2.2 (by decide)⟩

theorem objGet_append {β : Type} (l1 l2 : List (String × β)) (k : String) :
    objGet (l1 ++ l2) k =
      match objGet l1 k with
      | some v => some v
      | none => objGet l2 k := by
  induction l1 with
  | nil => simp [objGet]
  | cons p rest ih =>
    by_cases hp : p.1 = k
    · simp [objGet, hp]
    · simp [objGet, hp, ih]

theorem objGet_eq_none {β : Type} (m : List (String × β)) (k : String)
    (h : k ∉ m.map Prod.fst) : objGet m k = none := by
  induction m with
  | nil => rfl
  | cons p rest ih =>
    rw [List.map_cons, List.mem_cons] at h
    push_neg at h
    rw [objGet, if_neg (fun hk => h.1 hk.symm)]
    exact ih h.2

theorem metadata_prefix_inj {a b : String} (h : "metadata." ++ a = "metadata." ++ b) :
    a = b := by
  have hd : ("metadata." ++ a).data = ("metadata." ++ b).data := by rw [h]
  rw [String.data_append, String.data_append] at hd
  exact String.ext (List.append_cancel_left hd)

theorem filterStep_eq_case (filterQuery : List (String × FieldPred)) (e : String × FVal)
    (h1 : e.1 ≠ "publishedAfter") (h2 : e.1 ≠ "publishedBefore")
    (h3 : e.1 ≠ "startTimeRange") :
    filterStep filterQuery e = objSet filterQuery ("metadata." ++ e.1) { eqOp := some e.2 } := by
  rw [filterStep]
  by_cases hv : e.1 = "videoId" ∨ e.1 = "playlistId"
  · rw [if_pos hv]
  · rw [if_neg hv, if_neg h1, if_neg h2, if_neg h3]

theorem buildFilterQuery_keys_nodup (filters : List (String × FVal)) :
    ((buildFilterQuery filters).map Prod.fst).Nodup := by
  rw [buildFilterQuery]
  induction filters using List.reverseRecOn with
  | nil => exact List.nodup_nil
  | append_singleton l e ih =>
    rw [List.foldl_append, List.foldl_cons, List.foldl_nil]
    rw [filterStep]
    split_ifs <;> exact keys_objSet_nodup _ _ _ ih

theorem objGet_buildFilterQuery (filters : List (String × FVal))
    (hnd : (filters.map Prod.fst).Nodup)
    (hA : ∀ e ∈ filters, e.1 ≠ "publishedAt")
    (hS : ∀ e ∈ filters, e.1 ≠ "startTime")
    (field : String) :
    objGet (buildFilterQuery filters) field = specFilterTranslation filters field := by
  induction filters using List.reverseRecOn with
  | nil =>
    rw [specFilterTranslation]
    split_ifs <;> rfl
  | append_singleton l e ih =>
    have hfold : buildFilterQuery (l ++ [e]) = filterStep (buildFilterQuery l) e := by
      unfold buildFilterQuery
      rw [List.foldl_append, List.foldl_cons, List.foldl_nil]
    rw [List.map_append, List.nodup_append] at hnd
    have hke : e.1 ∉ l.map Prod.fst := by
      intro hmem
      exact hnd.2.2 hmem (by simp)
    have ihl := ih hnd.1 (fun u hu => hA u (List.mem_append_left _ hu))
      (fun u hu => hS u (List.mem_append_left _ hu))
    have hkA : e.1 ≠ "publishedAt" := hA e (List.mem_append_right _ (by simp))
    have hkS : e.1 ≠ "startTime" := hS e (List.mem_append_right _ (by simp))
    obtain ⟨k, v⟩ := e
    simp only at hke hkA hkS
    rw [hfold]
    by_cases haft : k = "publishedAfter"
    · subst haft
      have hstep : filterStep (buildFilterQuery l) ("publishedAfter", v) =
          objSet (buildFilterQuery l) "metadata.publishedAt"
            { (objGet (buildFilterQuery l) "metadata.publishedAt").getD {} with
              gteOp := some v } := by
        have hc1 : ¬(("publishedAfter" : String) = "videoId" ∨
            ("publishedAfter" : String) = "playlistId") := by decide
        rw [filterStep, if_neg hc1, if_pos rfl]
      rw [hstep]
      have haftl : objGet l "publishedAfter" = none := objGet_eq_none _ _ hke
      by_cases hf : field = "metadata.publishedAt"
      · subst hf
        rw [objGet_objSet_self]
        rw [specFilterTranslation, if_pos rfl]
        rw [ihl, specFilterTranslation, if_pos rfl, haftl]
        rw [objGet_append, objGet_append, haftl]
        cases hb : objGet l "publishedBefore" with
        | none => simp [objGet]
        | some w => simp [objGet]
      · rw [objGet_objSet_ne _ _ hf, ihl]
        rw [specFilterTranslation, specFilterTranslation, if_neg hf, if_neg hf]
        by_cases hft : field = "metadata.startTime"
        · rw [if_pos hft, if_pos hft, objGet_append]
          have h0 : objGet [(("publishedAfter" : String), v)] "startTimeRange" = none := by
            simp [objGet]
          cases hsr : objGet l "startTimeRange" <;> simp [hsr, h0]
        · rw [if_neg hft, if_neg hft, List.find?_append]
          have h0 : List.find? (fun u => decide (u.1 ≠ "publishedAfter") &&
              decide (u.1 ≠ "publishedBefore") && decide (u.1 ≠ "startTimeRange") &&
              decide ("metadata." ++ u.1 = field)) [(("publishedAfter" : String), v)]
              = none := by
            simp [List.find?]
          rw [h0, Option.or_none]
    · by_cases hbef : k = "publishedBefore"
      · subst hbef
        have hstep : filterStep (buildFilterQuery l) ("publishedBefore", v) =
            objSet (buildFilterQuery l) "metadata.publishedAt"
              { (objGet (buildFilterQuery l) "metadata.publishedAt").getD {} with
                lteOp := some v } := by
          have hc1 : ¬(("publishedBefore" : String) = "videoId" ∨
              ("publishedBefore" : String) = "playlistId") := by decide
          have hc2 : ¬(("publishedBefore" : String) = "publishedAfter") := by decide
          rw [filterStep, if_neg hc1, if_neg hc2, if_pos rfl]
        rw [hstep]
        have hbefl : objGet l "publishedBefore" = none := objGet_eq_none _ _ hke
        by_cases hf : field = "metadata.publishedAt"
        · subst hf
          rw [objGet_objSet_self]
          rw [specFilterTranslation, if_pos rfl]
          rw [ihl, specFilterTranslation, if_pos rfl, hbefl]
          rw [objGet_append, objGet_append, hbefl]
          cases ha : objGet l "publishedAfter" with
          | none => simp [objGet]
          | some w => simp [objGet]
        · rw [objGet_objSet_ne _ _ hf, ihl]
          rw [specFilterTranslation, specFilterTranslation, if_neg hf, if_neg hf]
          by_cases hft : field = "metadata.startTime"
          · rw [if_pos hft, if_pos hft, objGet_append]
            have h0 : objGet [(("publishedBefore" : String), v)] "startTimeRange" = none := by
              simp [objGet]
            cases hsr : objGet l "startTimeRange" <;> simp [hsr, h0]
          · rw [if_neg hft, if_neg hft, List.find?_append]
            have h0 : List.find? (fun u => decide (u.1 ≠ "publishedAfter") &&
                decide (u.1 ≠ "publishedBefore") && decide (u.1 ≠ "startTimeRange") &&
                decide ("metadata." ++ u.1 = field)) [(("publishedBefore" : String), v)]
                = none := by
              simp [List.find?]
            rw [h0, Option.or_none]
      · by_cases hstr : k = "startTimeRange"
        · subst hstr
          have hstep : filterStep (buildFilterQuery l) ("startTimeRange", v) =
              objSet (buildFilterQuery l) "metadata.startTime"
                { gteOp := (timeRangeMin v).map FVal.num,
                  lteOp := (timeRangeMax v).map FVal.num } := by
            have hc1 : ¬(("startTimeRange" : String) = "videoId" ∨
                ("startTimeRange" : String) = "playlistId") := by decide
            have hc2 : ¬(("startTimeRange" : String) = "publishedAfter") := by decide
            have hc3 : ¬(("startTimeRange" : String) = "publishedBefore") := by decide
            rw [filterStep, if_neg hc1, if_neg hc2, if_neg hc3, if_pos rfl]
          rw [hstep]
          have hstrl : objGet l "startTimeRange" = none := objGet_eq_none _ _ hke
          by_cases hf : field = "metadata.startTime"
          · subst hf
            rw [objGet_objSet_self]
            rw [specFilterTranslation, if_neg (by decide), if_pos rfl, objGet_append, hstrl]
            simp [objGet]
          · rw [objGet_objSet_ne _ _ hf, ihl]
            rw [specFilterTranslation, specFilterTranslation]
            by_cases hfp : field = "metadata.publishedAt"
            · rw [if_pos hfp, if_pos hfp, objGet_append, objGet_append]
              have h1 : objGet [(("startTimeRange" : String), v)] "publishedAfter" = none := by
                simp [objGet]
              have h2 : objGet [(("startTimeRange" : String), v)] "publishedBefore" = none := by
                simp [objGet]
              cases ha : objGet l "publishedAfter" <;>
                cases hb : objGet l "publishedBefore" <;> simp [ha, hb, h1, h2]
            · rw [if_neg hfp, if_neg hfp, if_neg hf, if_neg hf, List.find?_append]
              have h0 : List.find? (fun u => decide (u.1 ≠ "publishedAfter") &&
                  decide (u.1 ≠ "publishedBefore") && decide (u.1 ≠ "startTimeRange") &&
                  decide ("metadata." ++ u.1 = field)) [(("startTimeRange" : String), v)]
                  = none := by
                simp [List.find?]
              rw [h0, Option.or_none]
        · rw [filterStep_eq_case _ _ haft hbef hstr]
          simp only
          have hMP : ("metadata." ++ "publishedAt" : String) = "metadata.publishedAt" := by
            decide
          have hMS : ("metadata." ++ "startTime" : String) = "metadata.startTime" := by
            decide
          have hfkP : ("metadata." ++ k : String) ≠ "metadata.publishedAt" := by
            intro hh
            exact hkA (metadata_prefix_inj (hh.trans hMP.symm))
          have hfkS : ("metadata." ++ k : String) ≠ "metadata.startTime" := by
            intro hh
            exact hkS (metadata_prefix_inj (hh.trans hMS.symm))
          by_cases hf : field = "metadata." ++ k
          · subst hf
            rw [objGet_objSet_self]
            rw [specFilterTranslation, if_neg hfkP, if_neg hfkS, List.find?_append]
            have hfl : List.find? (fun u => decide (u.1 ≠ "publishedAfter") &&
                decide (u.1 ≠ "publishedBefore") && decide (u.1 ≠ "startTimeRange") &&
                decide ("metadata." ++ u.1 = "metadata." ++ k)) l = none := by
              rw [List.find?_eq_none]
              intro u hu hpu
              simp only [Bool.and_eq_true, decide_eq_true_eq] at hpu
              exact hke (List.mem_map.mpr ⟨u, hu, metadata_prefix_inj hpu.2⟩)
            rw [hfl, Option.none_or]
            simp [List.find?, haft, hbef, hstr]
          · rw [objGet_objSet_ne _ _ hf, ihl]
            rw [specFilterTranslation, specFilterTranslation]
            by_cases hfp : field = "metadata.publishedAt"
            · rw [if_pos hfp, if_pos hfp, objGet_append, objGet_append]
              have h1 : objGet [(k, v)] "publishedAfter" = none := by
                simp [objGet, haft]
              have h2 : objGet [(k, v)] "publishedBefore" = none := by
                simp [objGet, hbef]
              cases ha : objGet l "publishedAfter" <;>
                cases hb : objGet l "publishedBefore" <;> simp [ha, hb, h1, h2]
            · rw [if_neg hfp, if_neg hfp]
              by_cases hft : field = "metadata.startTime"
              · rw [if_pos hft, if_pos hft, objGet_append]
                have h0 : objGet [(k, v)] "startTimeRange" = none := by
                  simp [objGet, hstr]
                cases hsr : objGet l "startTimeRange" <;> simp [hsr, h0]
              · rw [if_neg hft, if_neg hft, List.find?_append]
                have h0 : List.find? (fun u => decide (u.1 ≠ "publishedAfter") &&
                    decide (u.1 ≠ "publishedBefore") && decide (u.1 ≠ "startTimeRange") &&
                    decide ("metadata." ++ u.1 = field)) [(k, v)] = none := by
                  have hne : ¬ ("metadata." ++ k = field) := fun hh => hf hh.symm
                  simp [List.find?, hne]
                rw [h0, Option.or_none]

theorem matchesFilterQuery_conj (q : List (String × FieldPred))
    (hnd : (q.map Prod.fst).Nodup) (doc : String → Option FVal) :
    matchesFilterQuery doc q = true ↔
      ∀ field p, objGet q field = some p → matchesFieldPred (doc field) p = true := by
  rw [matchesFilterQuery, List.all_eq_true]
  constructor
  · intro hall field p hget
    exact hall (field, p) (objGet_mem _ _ _ hget)
  · intro h e he
    exact h e.1 e.2 (mem_objGet_of_nodup _ _ _ hnd (by exact he))

/-- C7 counterexample: with the filter object
with entries publishedAfter = "2024-01-01" and publishedAt = "2024-06-01"
(distinct keys, so a legal JS filter object), the raw equality write for
the unrecognized key publishedAt lands on the same output field
metadata.publishedAt and replaces the object holding publishedAfter's
bound: the resulting filter carries only $eq and no $gte, so
publishedAfter does not become an inclusive lower bound and the two
claimed predicates are not conjoined. -/
theorem C7_counterexample_publishedAt_clobbers :
    buildFilterQuery
        [("publishedAfter", .str "2024-01-01"), ("publishedAt", .str "2024-06-01")] =
      [("metadata.publishedAt",
        { eqOp := some (.str "2024-06-01"), gteOp := none, lteOp := none })] ∧
    ((objGet (buildFilterQuery
        [("publishedAfter", .str "2024-01-01"), ("publishedAt", .str "2024-06-01")])
      "metadata.publishedAt").getD {}).gteOp = none := by
  exact ⟨by decide, by decide⟩

/-- C7 amended: for every filter object with pairwise-distinct keys none
of which is literally publishedAt or startTime (such a key's raw equality
write shares an output field with the range translations, and the later
write of the two clobbers or merges with the earlier), buildFilterQuery
translates exactly as claimed: videoId/playlistId and unrecognized keys
become equality predicates on metadata.<key>, publishedAfter and
publishedBefore become inclusive bounds on the single field
metadata.publishedAt, startTimeRange becomes inclusive bounds on
metadata.startTime with each bound present only when defined, and the
resulting filter matches a document exactly when every translated field
predicate holds (conjunction). -/
theorem C7_filter_translation (filters : List (String × FVal))
    (hnd : (filters.map Prod.fst).Nodup)
    (hA : ∀ e ∈ filters, e.1 ≠ "publishedAt")
    (hS : ∀ e ∈ filters, e.1 ≠ "startTime") :
    (∀ field, objGet (buildFilterQuery filters) field = specFilterTranslation filters field) ∧
    (∀ doc : String → Option FVal,
      matchesFilterQuery doc (buildFilterQuery filters) = true ↔
        ∀ field p, objGet (buildFilterQuery filters) field = some p →
          matchesFieldPred (doc field) p = true) :=
  ⟨fun field => objGet_buildFilterQuery filters hnd hA hS field,
   fun doc => matchesFilterQuery_conj _ (buildFilterQuery_keys_nodup filters) doc⟩

/-- Filter-object fixture for the C7 witness: one well-known equality
key, both date bounds, a startTimeRange with only min defined, and one
unrecognized passthrough key. -/
def fsW : List (String × FVal) :=
  [("videoId", .str "v1"),
   ("publishedAfter", .str "2024-01-01"),
   ("publishedBefore", .str "2024-12-31"),
   ("startTimeRange", .timeRange (some 10) none),
   ("topic", .str "databases")]

theorem C7_filter_translation_witness :
    ((fsW.map Prod.fst).Nodup ∧ (∀ e ∈ fsW, e.1 ≠ "publishedAt") ∧
      (∀ e ∈ fsW, e.1 ≠ "startTime")) ∧
    ((∀ field, objGet (buildFilterQuery fsW) field = specFilterTranslation fsW field) ∧
      (∀ doc : String → Option FVal,
        matchesFilterQuery doc (buildFilterQuery fsW) = true ↔
          ∀ field p, objGet (buildFilterQuery fsW) field = some p →
            matchesFieldPred (doc field) p = true)) :=
  ⟨⟨by decide, by decide, by decide⟩,
    C7_filter_translation fsW (by decide) (by decide) (by decide)⟩

theorem heapGet_append_lt (h extra : List SearchResult) (i : Nat) (hi : i < h.length) :
    heapGet (h ++ extra) i = heapGet h i := by
  rw [heapGet, heapGet, List.getD_eq_getElem?_getD, List.getD_eq_getElem?_getD,
    List.getElem?_append_left hi]

theorem heapGet_set_ne (h : List SearchResult) (i j : Nat) (v : SearchResult)
    (hij : j ≠ i) : heapGet (heapSet h j v) i = heapGet h i := by
  rw [heapGet, heapSet, heapGet, List.getD_eq_getElem?_getD, List.getD_eq_getElem?_getD,
    List.getElem?_set_ne hij]

theorem refFrameInv_vectorStepRef (vectorWeight minScore : Rat) (h0 : List SearchResult)
    (s : List SearchResult × List (String × Nat)) (ref : Nat)
    (hinv : RefFrameInv h0 s) : RefFrameInv h0 (vectorStepRef vectorWeight minScore s ref) := by
  rw [vectorStepRef]
  by_cases hs : (heapGet s.1 ref).score ≥ minScore
  · rw [if_pos hs]
    refine ⟨fun i hi => ?_, ?_, fun p hp => ?_⟩
    · rw [heapGet_append_lt _ _ i (lt_of_lt_of_le hi hinv.2.1)]
      exact hinv.1 i hi
    · rw [List.length_append]
      exact le_trans hinv.2.1 (Nat.le_add_right _ _)
    · rw [List.length_append]
      rcases mem_objSet _ _ _ _ hp with h1 | h1
      · rw [h1]
        exact ⟨hinv.2.1, by simp⟩
      · rcases hinv.2.2 p h1 with ⟨ha, hb⟩
        exact ⟨ha, lt_of_lt_of_le hb (Nat.le_add_right _ _)⟩
  · rw [if_neg hs]
    exact hinv

theorem refFrameInv_textStepRef (textWeight minScore : Rat) (h0 : List SearchResult)
    (s : List SearchResult × List (String × Nat)) (ref : Nat)
    (hinv : RefFrameInv h0 s) : RefFrameInv h0 (textStepRef textWeight minScore s ref) := by
  rw [textStepRef]
  by_cases hs : (heapGet s.1 ref).score ≥ minScore
  · rw [if_pos hs]
    cases hg : objGet s.2 (heapGet s.1 ref).id with
    | some eref =>
      rcases hinv.2.2 _ (objGet_mem _ _ _ hg) with ⟨hge, hlt⟩
      refine ⟨fun i hi => ?_, ?_, fun p hp => ?_⟩
      · rw [heapGet_set_ne _ i eref _ (fun he => absurd hi (by omega))]
        exact hinv.1 i hi
      · simp only [heapSet, List.length_set]
        exact hinv.2.1
      · simp only [heapSet, List.length_set]
        exact hinv.2.2 p hp
    | none =>
      refine ⟨fun i hi => ?_, ?_, fun p hp => ?_⟩
      · rw [heapGet_append_lt _ _ i (lt_of_lt_of_le hi hinv.2.1)]
        exact hinv.1 i hi
      · rw [List.length_append]
        exact le_trans hinv.2.1 (Nat.le_add_right _ _)
      · rw [List.length_append]
        rcases mem_objSet _ _ _ _ hp with h1 | h1
        · rw [h1]
          exact ⟨hinv.2.1, by simp⟩
        · rcases hinv.2.2 p h1 with ⟨ha, hb⟩
          exact ⟨ha, lt_of_lt_of_le hb (Nat.le_add_right _ _)⟩
  · rw [if_neg hs]
    exact hinv

theorem refFrameInv_foldl (h0 : List SearchResult)
    (f : List SearchResult × List (String × Nat) → Nat →
      List SearchResult × List (String × Nat))
    (hf : ∀ s ref, RefFrameInv h0 s → RefFrameInv h0 (f s ref)) (refs : List Nat)
    (s : List SearchResult × List (String × Nat)) (h : RefFrameInv h0 s) :
    RefFrameInv h0 (refs.foldl f s) := by
  induction refs generalizing s with
  | nil => exact h
  | cons a l ih => exact ih _ (hf s a h)

/-- C9: fusion copies entries before applying weights. combineResults
allocates fresh objects for the merge map and mutates only those copies,
so no field (score included) of any object referenced by the raw
vectorResults/textResults arrays changes during fusion; search then
returns those same untouched references, so the per-leg lists of the
returned HybridSearchResult carry each result's native, unweighted
score. -/
theorem C9_fusion_never_mutates_leg_objects (h : List SearchResult)
    (vectorRefs textRefs : List Nat) (topK : Int) (options : SearchOptions)
    (hvalid : ∀ ref ∈ vectorRefs ++ textRefs, ref < h.length) :
    (∀ ref ∈ vectorRefs ++ textRefs,
      heapGet (combineResultsRef h vectorRefs textRefs
        options.vectorWeight options.textWeight options.minScore).1 ref = heapGet h ref) ∧
    (searchRef h vectorRefs textRefs topK options).2.1 = vectorRefs ∧
    (searchRef h vectorRefs textRefs topK options).2.2.1 = textRefs ∧
    ∀ ref ∈ vectorRefs ++ textRefs,
      heapGet (searchRef h vectorRefs textRefs topK options).1 ref = heapGet h ref := by
  have hbase : RefFrameInv h (h, []) := ⟨fun i _ => rfl, le_refl _, by simp⟩
  have h1 := refFrameInv_foldl h _ (refFrameInv_vectorStepRef options.vectorWeight
    options.minScore h) vectorRefs _ hbase
  have h2 := refFrameInv_foldl h _ (refFrameInv_textStepRef options.textWeight
    options.minScore h) textRefs _ h1
  have hcells : ∀ ref ∈ vectorRefs ++ textRefs,
      heapGet (combineResultsRef h vectorRefs textRefs
        options.vectorWeight options.textWeight options.minScore).1 ref = heapGet h ref :=
    fun ref href => h2.1 ref (hvalid ref href)
  exact ⟨hcells, rfl, rfl, hcells⟩

/-- Heap fixture for the C9 witness; the object at reference 1 is
referenced by both legs, exercising the overlap-mutation path. -/
def heapW : List SearchResult :=
  [{ id := "a", content := "ca", score := 9 },
   { id := "b", content := "cb", score := 6 },
   { id := "c", content := "cc", score := 8 }]

theorem C9_fusion_never_mutates_leg_objects_witness :
    (∀ ref ∈ [0, 1] ++ [1, 2], ref < heapW.length) ∧
    ((∀ ref ∈ [0, 1] ++ [1, 2],
      heapGet (combineResultsRef heapW [0, 1] [1, 2]
        (SearchOptions.mk 7 3 5).vectorWeight (SearchOptions.mk 7 3 5).textWeight
        (SearchOptions.mk 7 3 5).minScore).1 ref = heapGet heapW ref) ∧
    (searchRef heapW [0, 1] [1, 2] 2 (SearchOptions.mk 7 3 5)).2.1 = [0, 1] ∧
    (searchRef heapW [0, 1] [1, 2] 2 (SearchOptions.mk 7 3 5)).2.2.1 = [1, 2] ∧
    ∀ ref ∈ [0, 1] ++ [1, 2],
      heapGet (searchRef heapW [0, 1] [1, 2] 2 (SearchOptions.mk 7 3 5)).1 ref =
        heapGet heapW ref) :=
  ⟨by decide,
    C9_fusion_never_mutates_leg_objects heapW [0, 1] [1, 2] 2 (SearchOptions.mk 7 3 5)
      (by decide)⟩

/-- Sortedness of the fusion output before truncation. -/
theorem combineResults_pairwise (vectorResults textResults : List SearchResult)
    (vectorWeight textWeight minScore : Rat) :
    (combineResults vectorResults textResults vectorWeight textWeight minScore).Pairwise
      scoreGe :=
  sorted_sortByScoreDesc _

/-- C2: each leg of HybridSearchService.search fails soft. If the lexical
backend errors, search still returns normally with textResults = [] and
combinedResults computed from the vector leg alone; if the embedding call
or the vector query errors, search returns normally with
vectorResults = [] and combinedResults computed from the text leg alone.
No leg error escapes search. -/
theorem C2_leg_errors_fail_soft (env : SearchEnv) (query : String) (topK : Int)
    (filters : Option RetrievalFilters) (options : SearchOptions) :
    (∀ e, env.searchText query topK filters = .error e →
      search env query topK filters options =
        { vectorResults := performVectorSearch env query topK filters
          textResults := []
          combinedResults := jsSliceTo
            (combineResults (performVectorSearch env query topK filters) []
              options.vectorWeight options.textWeight options.minScore) topK }) ∧
    (∀ e, env.generateEmbedding query = .error e →
      search env query topK filters options =
        { vectorResults := []
          textResults := performTextSearch env query topK filters
          combinedResults := jsSliceTo
            (combineResults [] (performTextSearch env query topK filters)
              options.vectorWeight options.textWeight options.minScore) topK }) ∧
    (∀ emb e, env.generateEmbedding query = .ok emb →
      env.vectorQuery emb topK filters = .error e →
      search env query topK filters options =
        { vectorResults := []
          textResults := performTextSearch env query topK filters
          combinedResults := jsSliceTo
            (combineResults [] (performTextSearch env query topK filters)
              options.vectorWeight options.textWeight options.minScore) topK }) := by
  refine ⟨fun e he => ?_, fun e he => ?_, fun emb e hok he => ?_⟩
  · simp [search, performTextSearch, he]
  · simp [search, performVectorSearch, he]
  · simp [search, performVectorSearch, hok, he]

theorem C2_leg_errors_fail_soft_witness :
    (envTextDown.searchText "q" 2 none = .error "lexical backend down" ∧
      search envTextDown "q" 2 none {} =
        { vectorResults := performVectorSearch envTextDown "q" 2 none
          textResults := []
          combinedResults := jsSliceTo
            (combineResults (performVectorSearch envTextDown "q" 2 none) []
              (({} : SearchOptions).vectorWeight) (({} : SearchOptions).textWeight)
              (({} : SearchOptions).minScore)) 2 }) ∧
    (envVectorDown.generateEmbedding "q" = .error "embedding provider down" ∧
      search envVectorDown "q" 2 none {} =
        { vectorResults := []
          textResults := performTextSearch envVectorDown "q" 2 none
          combinedResults := jsSliceTo
            (combineResults [] (performTextSearch envVectorDown "q" 2 none)
              (({} : SearchOptions).vectorWeight) (({} : SearchOptions).textWeight)
              (({} : SearchOptions).minScore)) 2 }) :=
  ⟨⟨rfl, (C2_leg_errors_fail_soft envTextDown "q" 2 none {}).1 _ rfl⟩,
   ⟨rfl, (C2_leg_errors_fail_soft envVectorDown "q" 2 none {}).2.1 _ rfl⟩⟩

/-- C4: for every non-empty query and topK at least 1, combinedResults
has length at most topK and is sorted descending by combined score. -/
theorem C4_topk_and_sorted (env : SearchEnv) (query : String) (topK : Int)
    (filters : Option RetrievalFilters) (options : SearchOptions)
    (hq : query ≠ "") (hk : 1 ≤ topK) :
    ((search env query topK filters options).combinedResults.length : Int) ≤ topK ∧
    (search env query topK filters options).combinedResults.Pairwise scoreGe := by
  have hnn : ¬ topK < 0 := by omega
  constructor
  · show ((jsSliceTo _ topK).length : Int) ≤ topK
    generalize combineResults _ _ _ _ _ = l
    rw [jsSliceTo, if_neg hnn]
    have h1 : (List.take topK.toNat l).length ≤ topK.toNat := by
      rw [List.length_take]
      exact Nat.min_le_left _ _
    have h2 : ((List.take topK.toNat l).length : Int) ≤ (topK.toNat : Int) := by
      exact_mod_cast h1
    rwa [Int.toNat_of_nonneg (by omega)] at h2
  · show (jsSliceTo (combineResults _ _ _ _ _) topK).Pairwise scoreGe
    rw [jsSliceTo, if_neg hnn]
    exact (combineResults_pairwise _ _ _ _ _).sublist (List.take_sublist _ _)

theorem C4_topk_and_sorted_witness :
    "database indexing" ≠ "" ∧ (1 : Int) ≤ 2 ∧
    (((search envTextDown "database indexing" 2 none {}).combinedResults.length : Int) ≤ 2 ∧
      (search envTextDown "database indexing" 2 none {}).combinedResults.Pairwise scoreGe) :=
  ⟨by decide, by decide,
    C4_topk_and_sorted envTextDown "database indexing" 2 none {} (by decide) (by decide)⟩

/-- C5 counterexample: with an empty query string and topK = 0, search is
not rejected: it returns a normal HybridSearchResult, and its textResults
field carries the lexical backend's reply, so the lexical I/O was
dispatched. No error is raised for malformed input. -/
theorem C5_counterexample_no_rejection :
    envNoValidation.searchText "" 0 none = .ok [{ id := "t1", content := "t", score := 1 }] ∧
    search envNoValidation "" 0 none { vectorWeight := 1, textWeight := 1, minScore := 0 } =
      { vectorResults := []
        textResults := [{ id := "t1", content := "t", score := 1 }]
        combinedResults := [] } := by
  refine ⟨rfl, ?_⟩
  norm_num [search, performVectorSearch, performTextSearch, envNoValidation,
    combineResults, vectorStep, textStep, objGet, objSet, sortByScoreDesc,
    insertDesc, jsSliceTo]

/-- C5 amended: HybridSearchService.search performs no input validation.
Even with an empty query string and a non-positive topK, no error is
raised: both legs are dispatched (the lexical backend's reply is returned
as textResults, the vector leg's soft-failed output as vectorResults) and
search returns a normal HybridSearchResult. -/
theorem C5_no_validation_legs_dispatched (env : SearchEnv) (topK : Int)
    (filters : Option RetrievalFilters) (options : SearchOptions)
    (rs : List SearchResult) (hk : topK ≤ 0)
    (ht : env.searchText "" topK filters = .ok rs) :
    (search env "" topK filters options).textResults = rs ∧
    (search env "" topK filters options).vectorResults =
      performVectorSearch env "" topK filters := by
  constructor
  · show performTextSearch env "" topK filters = rs
    rw [performTextSearch, ht]
  · rfl

theorem C5_no_validation_legs_dispatched_witness :
    (0 : Int) ≤ 0 ∧
    envNoValidation.searchText "" 0 none = .ok [{ id := "t1", content := "t", score := 1 }] ∧
    ((search envNoValidation "" 0 none {}).textResults =
        [{ id := "t1", content := "t", score := 1 }] ∧
      (search envNoValidation "" 0 none {}).vectorResults =
        performVectorSearch envNoValidation "" 0 none) :=
  ⟨by decide, rfl,
    C5_no_validation_legs_dispatched envNoValidation 0 none {} _ (by decide) rfl⟩

end TubeRag

